import Mathlib

/-!
Shallow embedding of the Typesense export job of the openbeta-graphql
repository (source file src/db/export/Typesense/Typesense.ts), together with
proofs of the frozen claims about it.

The export job reads area and climb documents from a MongoDB store page by
page, transforms each record into a search document, and bulk-imports the
transformed chunks into a Typesense search index.  External collaborators
(MongoDB, the Typesense client, the process environment) are embedded as
explicit state and oracle parameters; every definition is executable.
-/

namespace OpenBeta

/-! ## Geographic points and the coordinate swap -/

/-- GeoJSON point as used by the source records (the external type
`Point` of the turf helpers package): a coordinate list, by convention
`[longitude, latitude]`.  Coordinate values are opaque numbers here, embedded
as rationals. -/
structure Point where
  coordinates : List ℚ
deriving DecidableEq

/-- Embeds `geoToLatLng` (Typesense.ts lines 228-231): returns
`[coordinates[1], coordinates[0]]`.  Indexing out of range (impossible for the
two-element points the claims quantify over) is embedded with a zero
default. -/
def geoToLatLng (geoPoint : Point) : List ℚ :=
  [geoPoint.coordinates.getD 1 0, geoPoint.coordinates.getD 0 0]

/-! ## Source record shapes

`ClimbTypes.ts` and `AreaTypes.ts` are not under `src/`; the record shapes
below are taken from the fields that `Typesense.ts` actually reads, with
`AreaSchema.ts` (which is under `src/`) fixing the area field names.  A
missing required identifier is embedded as `none`, matching a document whose
identifier field is absent. -/

/-- Discipline flags of a climb.  Modelled from the spec: the flag record
type lives in `ClimbTypes.ts`, which is not under `src/`; section 3 of the
spec calls them "type/discipline tags" and section 4.2 "enumerated discipline
flags". -/
structure DisciplineFlags where
  trad : Bool
  sport : Bool
  bouldering : Bool
  alpine : Bool
  mixed : Bool
  aid : Bool
  tr : Bool
deriving DecidableEq

/-- Modelled from the spec: `disciplinesToArray` lives in
`src/db/export/Typesense/Utils.js`, which is not under `src/`.  Section 4.2
of the spec requires the transform to "deterministically convert ...
enumerated discipline flags into the destination array-of-strings
convention"; we embed it as listing the names of the flags that are set. -/
def disciplinesToArray (t : DisciplineFlags) : List String :=
  (if t.trad then [("trad")] else []) ++
  (if t.sport then [("sport")] else []) ++
  (if t.bouldering then [("bouldering")] else []) ++
  (if t.alpine then [("alpine")] else []) ++
  (if t.mixed then [("mixed")] else []) ++
  (if t.aid then [("aid")] else []) ++
  (if t.tr then [("tr")] else [])

/-- Metadata of a joined climb record as read by the export.  The external
MUUID value `climb_id` is embedded by its final string rendering (the source
calls `doc.metadata.climb_id.toUUID().toString()`); a malformed record
lacking the identifier is `none`. -/
structure ClimbMetadata where
  climb_id : Option String
  lnglat : Point
deriving DecidableEq

/-- Free-text content of a climb; the description is optional. -/
structure ClimbContent where
  description : Option String
deriving DecidableEq

/-- A climb record joined with its owning area (the `ClimbExtType` of the
source): exactly the fields the climb transform reads
(Typesense.ts lines 150-162). -/
structure ClimbExtType where
  metadata : ClimbMetadata
  name : String
  content : ClimbContent
  fa : Option String
  pathTokens : List String
  type : DisciplineFlags
  yds : String
  safety : String
deriving DecidableEq

/-- Metadata of an area record as read by the export; `area_id` is the
required unique identifier (`AreaSchema.ts` lines 14-19), embedded like the
climb identifier. -/
structure AreaMetadata where
  area_id : Option String
  lnglat : Point
  leaf : Bool
  isDestination : Bool
deriving DecidableEq

/-- An area record (the `AreaType` of the source): exactly the fields the
area transform reads (Typesense.ts lines 168-178). -/
structure AreaType where
  metadata : AreaMetadata
  area_name : Option String
  pathTokens : List String
  totalClimbs : Nat
  density : ℚ
deriving DecidableEq

/-! ## Destination document shapes -/

/-- Destination climb document (`ClimbTypeSenseItem`). -/
structure ClimbTypeSenseItem where
  climbUUID : String
  climbName : String
  climbDesc : String
  fa : String
  areaNames : List String
  disciplines : List String
  grade : String
  safety : String
  cragLatLng : List ℚ
deriving DecidableEq

/-- Destination area document (`AreaTypeSenseItem`). -/
structure AreaTypeSenseItem where
  areaUUID : String
  name : String
  pathTokens : List String
  areaLatLng : List ℚ
  leaf : Bool
  isDestination : Bool
  totalClimbs : Nat
  density : ℚ
deriving DecidableEq

/-! ## Record transformers -/

/-- Embeds the inner `mongoToTypeSense` of `updateClimbTypesense`
(Typesense.ts lines 150-162).  The source expression
`doc.metadata.climb_id.toUUID().toString()` throws when the identifier is
missing; the throw is embedded as `Except.error`. -/
def climbMongoToTypeSense (doc : ClimbExtType) : Except String ClimbTypeSenseItem :=
  match doc.metadata.climb_id with
  | none => Except.error ("TypeError: climb_id is undefined")
  | some uuid => Except.ok {
      climbUUID := uuid
      climbName := doc.name
      climbDesc := doc.content.description.getD ""
      fa := doc.fa.getD ""
      areaNames := doc.pathTokens
      disciplines := disciplinesToArray doc.type
      grade := doc.yds
      safety := doc.safety
      cragLatLng := geoToLatLng doc.metadata.lnglat }

/-- Embeds the inner `mongoToTypeSense` of `updateAreaTypesense`
(Typesense.ts lines 168-178), with the missing-identifier throw embedded as
`Except.error`. -/
def areaMongoToTypeSense (doc : AreaType) : Except String AreaTypeSenseItem :=
  match doc.metadata.area_id with
  | none => Except.error ("TypeError: area_id is undefined")
  | some uuid => Except.ok {
      areaUUID := uuid
      name := doc.area_name.getD ""
      pathTokens := doc.pathTokens
      areaLatLng := geoToLatLng doc.metadata.lnglat
      leaf := doc.metadata.leaf
      isDestination := doc.metadata.isDestination
      totalClimbs := doc.totalClimbs
      density := doc.density }

/-! ## Pagination

`getAllClimbs` (Typesense.ts lines 23-65) and `getAllAreas` (lines 68-83)
page through their source collection with `skip(pageNum * chunkSize)` and
`limit(chunkSize)` (MongoDB applies skip before limit regardless of the call
order on the cursor), yielding each fetched page until a fetched page is
empty.  We embed the source collection as the full list of records the store
would return; a fetch with skip and limit is then drop-and-take.  The loop of
the source is unbounded; the embedding gives it fuel `length + 1`, which a
lemma shows is beyond the step at which the loop stops. -/

/-- The maximum number of documents pushed to Typesense at once
(Typesense.ts line 15). -/
def chunkSize : Nat := 5000

/-- One page fetch: `skip (pageNum * pageSize)` then `limit pageSize`. -/
def fetchPage (records : List α) (pageSize pageNum : Nat) : List α :=
  (records.drop (pageNum * pageSize)).take pageSize

/-- The generator loop: fetch the page for `pageNum`; stop on an empty page,
otherwise yield it and continue with `pageNum + 1`.  `fuel` only bounds the
recursion. -/
def genPagesAux (records : List α) (pageSize : Nat) : Nat → Nat → List (List α)
  | 0, _ => []
  | fuel + 1, pageNum =>
      let page := fetchPage records pageSize pageNum
      if page.length = 0 then []
      else page :: genPagesAux records pageSize fuel (pageNum + 1)

/-- All pages yielded by the generator pattern shared by `getAllClimbs` and
`getAllAreas`, for a source collection `records` and a page size. -/
def genPages (records : List α) (pageSize : Nat) : List (List α) :=
  genPagesAux records pageSize (records.length + 1) 0

/-- Embeds `getAllClimbs` (Typesense.ts lines 23-65): the server-side join
with the areas collection is performed by the external store, so the input
here is already the list of joined records; the generator then pages through
it with page size `chunkSize`. -/
def getAllClimbs (climbs : List ClimbExtType) : List (List ClimbExtType) :=
  genPages climbs chunkSize

/-- Embeds `getAllAreas` (Typesense.ts lines 68-83). -/
def getAllAreas (areas : List AreaType) : List (List AreaType) :=
  genPages areas chunkSize

/-! ## The destination store and its client

The Typesense server and client are external; they are embedded as explicit
state (named collections holding document lists) plus a fault oracle for the
failures the claims talk about.  Per section 6 of the spec the destination
exposes delete-collection-by-name (an error when the collection is absent),
create-collection-with-schema, and bulk-document-import for a named
collection.  Imported documents carry no explicit Typesense `id` field, so a
bulk import appends documents to the named collection, and an import into an
absent collection is an error. -/

/-- A destination document: either destination shape. -/
inductive TDoc where
  | climb (d : ClimbTypeSenseItem)
  | area (d : AreaTypeSenseItem)
deriving DecidableEq

/-- The destination store: named collections with their documents. -/
structure TypesenseState where
  collections : List (String × List TDoc)
deriving DecidableEq

/-- Delete-collection-by-name; an error when no such collection exists. -/
def deleteCollection (s : TypesenseState) (name : String) : Except String TypesenseState :=
  if s.collections.any (fun c => c.1 == name) then
    Except.ok ⟨s.collections.filter (fun c => c.1 != name)⟩
  else Except.error ("ObjectNotFound")

/-- Create-collection-with-schema: adds a fresh empty collection. -/
def createCollection (s : TypesenseState) (name : String) : TypesenseState :=
  ⟨s.collections ++ [(name, [])]⟩

/-- Bulk import into a named collection: appends the documents, an error
when the collection is absent. -/
def importDocs (s : TypesenseState) (name : String) (docs : List TDoc) :
    Except String TypesenseState :=
  if s.collections.any (fun c => c.1 == name) then
    Except.ok ⟨s.collections.map (fun c => if c.1 == name then (c.1, c.2 ++ docs) else c)⟩
  else Except.error ("ObjectNotFound")

/-- Fault oracle for the external destination: whether the create call for a
given collection name fails, and whether the n-th import call of the run
fails (counting all import calls of the run in order). -/
structure Faults where
  createFails : String → Bool
  importFails : Nat → Bool

/-- The schema argument type of the provisioning call; only the collection
name is observable to the orchestrator. -/
structure CollectionCreateSchema where
  name : String
deriving DecidableEq

/-- Modelled from the spec: the climb destination schema is declared in
`TypesenseSchemas.ts`, which is not under `src/`; section 6 requires "an
Area-document schema and a Climb-document schema".  Only the collection name
matters here. -/
def climbSchema : CollectionCreateSchema := ⟨"climbs"⟩

/-- Modelled from the spec: the area destination schema, see
`climbSchema`. -/
def areaSchema : CollectionCreateSchema := ⟨"areas"⟩

/-! ## Observable events and run outcomes -/

/-- Observable steps of a run: destination calls, page fetches, record
transforms, and log lines. -/
inductive Event where
  | deleteColl (name : String)
  | createColl (name : String)
  | fetchPage (pageNum : Nat)
  | transform (count : Nat)
  | importCall (name : String) (count : Nat)
  | logInfo (msg : String)
  | logError (msg : String)
deriving DecidableEq

/-- How a run of the process ends: through the defined exit path with an
exit code, or by an unhandled thrown error. -/
inductive ExitKind where
  | exited (code : Nat)
  | threw (msg : String)
deriving DecidableEq

/-- Result of one step of the pipeline: either a value to continue with, or
the run has halted (process exit or unhandled throw) in the recorded
destination state. -/
inductive StepRes (α : Type) where
  | ok (a : α)
  | halted (k : ExitKind) (s : TypesenseState)
deriving DecidableEq

/-- Outcome of a whole run: the event trace, how the process ended, and the
final destination state. -/
structure RunOutcome where
  trace : List Event
  halt : ExitKind
  final : TypesenseState
deriving DecidableEq

/-- Modelled from the spec: `gracefulExit` is defined in `src/db/index.ts`,
which is not under `src/`.  Sections 6 and 7 fix its behaviour: it terminates
the process with the given exit code, and the call with no argument is the
completed-run path, which per section 6 exits with code zero; so the default
code of the no-argument form is zero and call sites pass the code
explicitly here. -/
def gracefulExit (s : TypesenseState) (code : Nat) : StepRes α :=
  StepRes.halted (ExitKind.exited code) s

/-! ## The pipeline -/

/-- Embeds `checkCollection` (Typesense.ts lines 90-110): try to delete the
collection (a failure, such as absence, is only logged), then create it; a
creation failure is logged and then `gracefulExit()` runs, with no argument,
hence with the default exit code zero. -/
def checkCollection (faults : Faults) (schema : CollectionCreateSchema)
    (s : TypesenseState) : List Event × StepRes TypesenseState :=
  let (delEvs, s1) :=
    match deleteCollection s schema.name with
    | Except.ok s2 =>
        ([Event.deleteColl schema.name,
          Event.logError ("dropped " ++ schema.name ++ " collection from typesense")], s2)
    | Except.error e =>
        ([Event.deleteColl schema.name, Event.logError e], s)
  if faults.createFails schema.name then
    (delEvs ++ [Event.createColl schema.name, Event.logError ("create failed")],
     gracefulExit s1 0)
  else
    (delEvs ++ [Event.createColl schema.name,
       Event.logError ("created " ++ schema.name ++ " typesense collection")],
     StepRes.ok (createCollection s1 schema.name))

/-- Embeds `uploadChunk` (Typesense.ts lines 112-124): an empty chunk
returns immediately; otherwise the chunk size is logged and one bulk import
is attempted, with any failure caught and logged.  `cnt` numbers the import
attempts of the run for the fault oracle. -/
def uploadChunk (faults : Faults) (cnt : Nat) (schema : CollectionCreateSchema)
    (chunk : List TDoc) (s : TypesenseState) : List Event × TypesenseState × Nat :=
  if chunk.length = 0 then ([], s, cnt)
  else
    let evs := [Event.logInfo ("pushing " ++ toString chunk.length ++ " documents to typesense"),
                Event.importCall schema.name chunk.length]
    if faults.importFails cnt then
      (evs ++ [Event.logError ("import failed")], s, cnt + 1)
    else
      match importDocs s schema.name chunk with
      | Except.ok s1 => (evs, s1, cnt + 1)
      | Except.error e => (evs ++ [Event.logError e], s, cnt + 1)

/-- Embeds `chunk.map(convert)` at Typesense.ts line 145: JavaScript `map`
either converts every record or propagates the first thrown error.  Note the
call sits in the argument of `uploadChunk`, outside the try of
`uploadChunk`. -/
def mapExcept (f : σ → Except String β) : List σ → Except String (List β)
  | [] => Except.ok []
  | x :: xs =>
      match f x with
      | Except.error e => Except.error e
      | Except.ok y =>
          match mapExcept f xs with
          | Except.error e => Except.error e
          | Except.ok ys => Except.ok (y :: ys)

/-- Embeds the `for await` loop of `processMongoCollection`
(Typesense.ts lines 143-146): fetch the page for `pageNum`; an empty fetch
ends the generator and the loop; otherwise transform the whole page (a throw
here is unhandled and halts the run) and upload the chunk, then continue. -/
def processMongoCollectionLoop (faults : Faults) (schema : CollectionCreateSchema)
    (convert : σ → Except String TDoc) :
    List (List σ) → Nat → Nat → TypesenseState → List Event × StepRes (TypesenseState × Nat)
  | [], pageNum, cnt, s => ([Event.fetchPage pageNum], StepRes.ok (s, cnt))
  | page :: rest, pageNum, cnt, s =>
      match mapExcept convert page with
      | Except.error e =>
          ([Event.fetchPage pageNum], StepRes.halted (ExitKind.threw e) s)
      | Except.ok docs =>
          let u := uploadChunk faults cnt schema docs s
          let r := processMongoCollectionLoop faults schema convert rest (pageNum + 1) u.2.2 u.2.1
          (Event.fetchPage pageNum :: Event.transform page.length :: (u.1 ++ r.1), r.2)

/-- Embeds `processMongoCollection` (Typesense.ts lines 134-147).  The
provisioning call at line 141 passes the hardcoded `areaSchema`, not the
`schema` parameter; the embedding preserves that literally. -/
def processMongoCollection (faults : Faults) (schema : CollectionCreateSchema)
    (convert : σ → Except String TDoc) (pages : List (List σ))
    (s : TypesenseState) (cnt : Nat) : List Event × StepRes (TypesenseState × Nat) :=
  match checkCollection faults areaSchema s with
  | (evs, StepRes.halted k s1) => (evs, StepRes.halted k s1)
  | (evs, StepRes.ok s1) =>
      (evs ++ (processMongoCollectionLoop faults schema convert pages 0 cnt s1).1,
       (processMongoCollectionLoop faults schema convert pages 0 cnt s1).2)

/-- Embeds `updateClimbTypesense` (Typesense.ts lines 149-165). -/
def updateClimbTypesense (faults : Faults) (climbs : List ClimbExtType)
    (s : TypesenseState) (cnt : Nat) : List Event × StepRes (TypesenseState × Nat) :=
  processMongoCollection faults climbSchema
    (fun doc => (climbMongoToTypeSense doc).map TDoc.climb) (getAllClimbs climbs) s cnt

/-- Embeds `updateAreaTypesense` (Typesense.ts lines 167-182). -/
def updateAreaTypesense (faults : Faults) (areas : List AreaType)
    (s : TypesenseState) (cnt : Nat) : List Event × StepRes (TypesenseState × Nat) :=
  processMongoCollection faults areaSchema
    (fun doc => (areaMongoToTypeSense doc).map TDoc.area) (getAllAreas areas) s cnt

/-- The process environment variables the job reads. -/
structure Env where
  TYPESENSE_NODE : Option String
  TYPESENSE_API_KEY : Option String

/-- The command-line flags the job reads. -/
structure Argv where
  climbs : Bool
  areas : Bool

/-- The two optional sync passes of `onDBConnected`
(Typesense.ts lines 208-218), threading state and the import counter from
the climbs pass into the areas pass. -/
def runPasses (argv : Argv) (faults : Faults) (climbs : List ClimbExtType)
    (areasSrc : List AreaType) (s : TypesenseState) :
    List Event × StepRes (TypesenseState × Nat) :=
  let (ev1, r1) :=
    if argv.climbs then
      match updateClimbTypesense faults climbs s 0 with
      | (e, StepRes.ok x) => (e ++ [Event.logInfo ("Climbs pushed to typesense")], StepRes.ok x)
      | (e, StepRes.halted k s1) => (e, StepRes.halted k s1)
    else ([], StepRes.ok (s, 0))
  match r1 with
  | StepRes.halted k s1 => (ev1, StepRes.halted k s1)
  | StepRes.ok (s1, c1) =>
      if argv.areas then
        match updateAreaTypesense faults areasSrc s1 c1 with
        | (e2, StepRes.ok x) =>
            (ev1 ++ e2 ++ [Event.logInfo ("areas pushed to typesense")], StepRes.ok x)
        | (e2, StepRes.halted k s2) => (ev1 ++ e2, StepRes.halted k s2)
      else (ev1, StepRes.ok (s1, c1))

/-- Embeds `onDBConnected` (Typesense.ts lines 184-221): read the two
environment variables with an empty-string default; if either is empty, exit
with code 1 before any other step; otherwise run the selected passes and end
with the no-argument `gracefulExit()` (exit code zero). -/
def onDBConnected (env : Env) (argv : Argv) (faults : Faults)
    (climbs : List ClimbExtType) (areasSrc : List AreaType)
    (s : TypesenseState) : RunOutcome :=
  if env.TYPESENSE_NODE.getD "" = "" ∨ env.TYPESENSE_API_KEY.getD "" = "" then
    ⟨[], ExitKind.exited 1, s⟩
  else
    match runPasses argv faults climbs areasSrc s with
    | (ev, StepRes.ok (s1, _)) =>
        ⟨Event.logInfo ("Start pushing data to TypeSense") :: ev, ExitKind.exited 0, s1⟩
    | (ev, StepRes.halted k s1) =>
        ⟨Event.logInfo ("Start pushing data to TypeSense") :: ev, k, s1⟩

/-- The destination state in which a pass leaves the store, whether the pass
returned or halted. -/
def passFinalState (r : List Event × StepRes (TypesenseState × Nat)) : TypesenseState :=
  match r.2 with
  | StepRes.ok (s, _) => s
  | StepRes.halted _ s => s

/-! ## Observation helpers and concrete fixtures -/

/-- Whether an event is sync work of a pass: a page read, a record
transform, or a chunk upload. -/
def isSyncWork : Event → Bool
  | Event.fetchPage _ => true
  | Event.transform _ => true
  | Event.importCall _ _ => true
  | _ => false

/-- The number of bulk import calls recorded in a trace. -/
def countImports (evs : List Event) : Nat :=
  (evs.filter (fun e => match e with
    | Event.importCall _ _ => true
    | _ => false)).length

/-- Whether a step result is a normal return (the pass completed without
halting the process). -/
def finishedOk : StepRes (TypesenseState × Nat) → Bool
  | StepRes.ok _ => true
  | _ => false

/-- The exit kind a step result halted with, when it halted. -/
def haltKind : StepRes (TypesenseState × Nat) → Option ExitKind
  | StepRes.ok _ => none
  | StepRes.halted k _ => some k

/-- Whether a step result is a halt by an unhandled thrown error (as opposed
to a normal return or a process exit). -/
def threwUnhandled : StepRes (TypesenseState × Nat) → Bool
  | StepRes.halted (ExitKind.threw _) _ => true
  | _ => false

/-- The fault oracle under which every destination call succeeds. -/
def noFaults : Faults := ⟨fun _ => false, fun _ => false⟩

/-- The fault oracle under which every collection creation fails. -/
def allCreateFail : Faults := ⟨fun _ => true, fun _ => false⟩

/-- The fault oracle under which exactly the first import call of the run
fails. -/
def oneImportFault : Faults := ⟨fun _ => false, fun n => n == 0⟩

/-- A minimal well-formed joined climb record, used as a concrete input. -/
def climbFixture : ClimbExtType :=
  { metadata := { climb_id := some ("climb-uuid-1"), lnglat := ⟨[(0 : ℚ), 0]⟩ }
    name := ""
    content := ⟨none⟩
    fa := none
    pathTokens := []
    type := ⟨false, false, false, false, false, false, false⟩
    yds := ""
    safety := "" }

/-- The destination document the climb transform produces from
`climbFixture`. -/
def climbFixtureDoc : ClimbTypeSenseItem :=
  { climbUUID := "climb-uuid-1"
    climbName := ""
    climbDesc := ""
    fa := ""
    areaNames := []
    disciplines := []
    grade := ""
    safety := ""
    cragLatLng := [(0 : ℚ), 0] }

/-- A well-formed joined climb record whose optional fields are present,
used as a concrete input. -/
def describedClimbFixture : ClimbExtType :=
  { climbFixture with
    content := ⟨some ("A fine crack climb")⟩
    fa := some ("J. Doe 1952") }

/-- The destination document the climb transform produces from
`describedClimbFixture`. -/
def describedClimbFixtureDoc : ClimbTypeSenseItem :=
  { climbFixtureDoc with
    climbDesc := "A fine crack climb"
    fa := "J. Doe 1952" }

/-- A malformed joined climb record: the required identifier is missing. -/
def badClimbFixture : ClimbExtType :=
  { metadata := { climb_id := none, lnglat := ⟨[(0 : ℚ), 0]⟩ }
    name := ""
    content := ⟨none⟩
    fa := none
    pathTokens := []
    type := ⟨false, false, false, false, false, false, false⟩
    yds := ""
    safety := "" }

/-- A minimal well-formed area record, used as a concrete input. -/
def areaFixture : AreaType :=
  { metadata := { area_id := some ("area-uuid-1"), lnglat := ⟨[(0 : ℚ), 0]⟩,
                  leaf := true, isDestination := false }
    area_name := none
    pathTokens := []
    totalClimbs := 0
    density := 0 }

/-- The destination document the area transform produces from
`areaFixture`. -/
def areaFixtureDoc : AreaTypeSenseItem :=
  { areaUUID := "area-uuid-1"
    name := ""
    pathTokens := []
    areaLatLng := [(0 : ℚ), 0]
    leaf := true
    isDestination := false
    totalClimbs := 0
    density := 0 }

/-! ## Chunk decomposition: the proof companion of the generator -/

/-- Structural chunk decomposition of a list into successive `take pageSize`
slices; a lemma below shows the generator yields exactly these chunks. -/
def chunksOf (pageSize : Nat) : List α → List (List α)
  | [] => []
  | x :: xs =>
      if _h : pageSize = 0 then []
      else ((x :: xs).take pageSize) :: chunksOf pageSize ((x :: xs).drop pageSize)
termination_by l => l.length
decreasing_by
  simp only [List.length_drop, List.length_cons]
  omega

theorem chunksOf_nil (p : Nat) : chunksOf p ([] : List α) = [] := by
  rw [chunksOf]

theorem chunksOf_cons_eq {p : Nat} (hp : 0 < p) {l : List α} (hl : l ≠ []) :
    chunksOf p l = l.take p :: chunksOf p (l.drop p) := by
  cases l with
  | nil => exact absurd rfl hl
  | cons x xs =>
      rw [chunksOf, dif_neg (by omega)]

/-- Recursion principle following the chunk decomposition. -/
theorem chunksOf_rec {α : Type} {p : Nat} (hp : 0 < p) {motive : List α → Prop}
    (base : motive ([] : List α))
    (step : ∀ l : List α, l ≠ [] → motive (l.drop p) → motive l) :
    ∀ l, motive l := by
  have H : ∀ n, ∀ l : List α, l.length ≤ n → motive l := by
    intro n
    induction n with
    | zero =>
        intro l hl
        have hnil : l = [] := List.length_eq_zero.mp (Nat.le_zero.mp hl)
        simpa [hnil] using base
    | succ n ih =>
        intro l hl
        by_cases hn : l = []
        · simpa [hn] using base
        · refine step l hn (ih (l.drop p) ?_)
          have h1 : 0 < l.length := List.length_pos.mpr hn
          simp only [List.length_drop]
          omega
  intro l
  exact H l.length l le_rfl

theorem chunksOf_flatten {α : Type} {p : Nat} (hp : 0 < p) :
    ∀ l : List α, (chunksOf p l).flatten = l := by
  refine chunksOf_rec hp (by simp [chunksOf_nil]) ?_
  intro l hl ih
  rw [chunksOf_cons_eq hp hl, List.flatten_cons, ih, List.take_append_drop]

theorem chunksOf_length {α : Type} {p : Nat} (hp : 0 < p) :
    ∀ l : List α, (chunksOf p l).length = if l.length = 0 then 0 else (l.length - 1) / p + 1 := by
  refine chunksOf_rec hp (by simp [chunksOf_nil]) ?_
  intro l hl ih
  have hlpos : 0 < l.length := List.length_pos.mpr hl
  rw [chunksOf_cons_eq hp hl]
  simp only [List.length_cons, ih, List.length_drop, if_neg (by omega : ¬l.length = 0)]
  by_cases hle : l.length ≤ p
  · rw [if_pos (by omega)]
    have hlt : l.length - 1 < p := by omega
    rw [Nat.div_eq_of_lt hlt]
  · rw [if_neg (by omega)]
    have h2 : l.length - 1 = (l.length - p - 1) + p := by omega
    rw [h2, Nat.add_div_right _ hp]

/-- The ceiling form of the page count. -/
theorem ceil_div_eq {p : Nat} (hp : 0 < p) (N : Nat) :
    (N + p - 1) / p = if N = 0 then 0 else (N - 1) / p + 1 := by
  by_cases hN : N = 0
  · subst hN
    simp only [if_pos]
    have : p - 1 < p := by omega
    simpa using Nat.div_eq_of_lt this
  · rw [if_neg hN]
    have h2 : N + p - 1 = (N - 1) + p := by omega
    rw [h2, Nat.add_div_right _ hp]

theorem chunksOf_mem_ne_nil {α : Type} {p : Nat} (hp : 0 < p) :
    ∀ l : List α, ∀ page ∈ chunksOf p l, page ≠ [] := by
  refine chunksOf_rec hp (by simp [chunksOf_nil]) ?_
  intro l hl ih page hmem
  rw [chunksOf_cons_eq hp hl] at hmem
  rcases List.mem_cons.mp hmem with h | h
  · subst h
    rw [Ne, List.take_eq_nil_iff]
    push_neg
    exact ⟨by omega, hl⟩
  · exact ih page h

theorem chunksOf_mem_length_le {α : Type} {p : Nat} (hp : 0 < p) :
    ∀ l : List α, ∀ page ∈ chunksOf p l, page.length ≤ p := by
  refine chunksOf_rec hp (by simp [chunksOf_nil]) ?_
  intro l hl ih page hmem
  rw [chunksOf_cons_eq hp hl] at hmem
  rcases List.mem_cons.mp hmem with h | h
  · subst h
    simp only [List.length_take]
    omega
  · exact ih page h

theorem chunksOf_getElem? {α : Type} {p : Nat} (hp : 0 < p) :
    ∀ l : List α, ∀ i : Nat,
      (chunksOf p l)[i]? =
        if l.length ≤ i * p then none else some ((l.drop (i * p)).take p) := by
  refine chunksOf_rec hp ?_ ?_
  · intro i
    simp [chunksOf_nil]
  · intro l hl ih i
    rw [chunksOf_cons_eq hp hl]
    cases i with
    | zero =>
        have hlpos : 0 < l.length := List.length_pos.mpr hl
        rw [if_neg (by omega)]
        simp
    | succ i =>
        rw [List.getElem?_cons_succ, ih i]
        have hmul : (i + 1) * p = i * p + p := Nat.succ_mul i p
        have hdd : (l.drop p).drop (i * p) = l.drop ((i + 1) * p) := by
          rw [List.drop_drop, hmul, Nat.add_comm (i * p) p]
        have hcond : ((l.drop p).length ≤ i * p) ↔ (l.length ≤ (i + 1) * p) := by
          simp only [List.length_drop, hmul]
          omega
        by_cases hle : l.length ≤ (i + 1) * p
        · rw [if_pos (hcond.mpr hle), if_pos hle]
        · rw [if_neg (fun hc => hle (hcond.mp hc)), if_neg hle, hdd]

/-- Every page strictly before the last one is full. -/
theorem chunksOf_full {α : Type} {p : Nat} (hp : 0 < p) :
    ∀ l : List α, ∀ i : Nat, i + 1 < (chunksOf p l).length →
      ∃ page, (chunksOf p l)[i]? = some page ∧ page.length = p := by
  refine chunksOf_rec hp ?_ ?_
  · intro i hi
    rw [chunksOf_nil] at hi
    simp at hi
  · intro l hl ih i hi
    rw [chunksOf_cons_eq hp hl] at hi ⊢
    cases i with
    | zero =>
        simp only [List.length_cons] at hi
        have hrest : chunksOf p (l.drop p) ≠ [] := by
          intro hc
          rw [hc] at hi
          simp at hi
        have hdrop : l.drop p ≠ [] := by
          intro hc
          rw [hc, chunksOf_nil] at hrest
          exact hrest rfl
        have hlen : p < l.length := by
          have := (Ne.symm hdrop)
          have h2 : ¬ l.length ≤ p := fun hle => hdrop (List.drop_eq_nil_of_le hle)
          omega
        refine ⟨l.take p, by simp, ?_⟩
        simp only [List.length_take]
        omega
    | succ i =>
        simp only [List.length_cons] at hi
        rw [List.getElem?_cons_succ]
        exact ih i (by omega)

/-- The last page has `length % p` records, or `p` of them when the length
divides evenly. -/
theorem chunksOf_last {α : Type} {p : Nat} (hp : 0 < p) :
    ∀ l : List α, l ≠ [] →
      ∃ page, (chunksOf p l)[(chunksOf p l).length - 1]? = some page ∧
        page.length = (if l.length % p = 0 then p else l.length % p) := by
  refine chunksOf_rec hp (fun h => absurd rfl h) ?_
  intro l hl ih _
  have hlpos : 0 < l.length := List.length_pos.mpr hl
  rw [chunksOf_cons_eq hp hl]
  by_cases hle : l.length ≤ p
  · have hdrop : l.drop p = [] := List.drop_eq_nil_of_le hle
    rw [hdrop, chunksOf_nil]
    refine ⟨l.take p, by simp, ?_⟩
    have htake : (l.take p).length = l.length := by
      simp only [List.length_take]
      omega
    rw [htake]
    by_cases heq : l.length = p
    · rw [heq]
      simp [Nat.mod_self]
    · have hlt : l.length < p := by omega
      rw [Nat.mod_eq_of_lt hlt, if_neg (by omega)]
  · have hdrop : l.drop p ≠ [] := by
      intro hc
      rw [List.drop_eq_nil_iff] at hc
      omega
    obtain ⟨page, hpage, hplen⟩ := ih hdrop
    have hrest : 0 < (chunksOf p (l.drop p)).length := by
      rw [List.length_pos]
      intro hc
      rw [hc] at hpage
      simp at hpage
    refine ⟨page, ?_, ?_⟩
    · simp only [List.length_cons]
      have hidx : (chunksOf p (l.drop p)).length + 1 - 1 =
          ((chunksOf p (l.drop p)).length - 1) + 1 := by omega
      rw [hidx, List.getElem?_cons_succ]
      exact hpage
    · rw [hplen]
      have hmod : l.length % p = (l.drop p).length % p := by
        simp only [List.length_drop]
        exact Nat.mod_eq_sub_mod (by omega)
      rw [hmod]

/-- With positive page size and enough fuel, the generator loop starting at
page `pageNum` yields exactly the chunk decomposition of what remains after
`pageNum` pages. -/
theorem genPagesAux_eq_chunksOf {α : Type} {p : Nat} (hp : 0 < p) (records : List α) :
    ∀ fuel m pageNum, records.drop (pageNum * p) = m → m.length < fuel →
      genPagesAux records p fuel pageNum = chunksOf p m := by
  intro fuel
  induction fuel with
  | zero =>
      intro m pageNum _ h
      omega
  | succ n ih =>
      intro m pageNum hdrop hlen
      simp only [genPagesAux, fetchPage, hdrop]
      by_cases hm : m = []
      · subst hm
        simp [chunksOf_nil]
      · have hmpos : 0 < m.length := List.length_pos.mpr hm
        have htake : ¬ (m.take p).length = 0 := by
          simp only [List.length_take]
          omega
        rw [if_neg htake, chunksOf_cons_eq hp hm]
        have hdd : records.drop ((pageNum + 1) * p) = m.drop p := by
          have hmul : (pageNum + 1) * p = pageNum * p + p := Nat.succ_mul pageNum p
          rw [hmul, ← List.drop_drop, hdrop]
        have hlen2 : (m.drop p).length < n := by
          simp only [List.length_drop]
          omega
        rw [ih (m.drop p) (pageNum + 1) hdd hlen2]

/-- The generator yields exactly the chunk decomposition of the source. -/
theorem genPages_eq_chunksOf {α : Type} {p : Nat} (hp : 0 < p) (records : List α) :
    genPages records p = chunksOf p records := by
  refine genPagesAux_eq_chunksOf hp records (records.length + 1) records 0 ?_ (by omega)
  simp

/-! ## Lemmas about the throwing map -/

theorem mapExcept_ok_of_forall {σ β : Type} (f : σ → Except String β) :
    ∀ l : List σ, (∀ r ∈ l, ∃ y, f r = Except.ok y) →
      ∃ ys, mapExcept f l = Except.ok ys ∧ ys.length = l.length := by
  intro l
  induction l with
  | nil => exact fun _ => ⟨[], rfl, rfl⟩
  | cons x xs ih =>
      intro h
      obtain ⟨y, hy⟩ := h x (List.mem_cons_self x xs)
      obtain ⟨ys, hys, hlen⟩ := ih (fun r hr => h r (List.mem_cons_of_mem x hr))
      refine ⟨y :: ys, ?_, by simp [hlen]⟩
      simp only [mapExcept, hy, hys]

theorem mapExcept_ok_length {σ β : Type} (f : σ → Except String β) :
    ∀ l : List σ, ∀ ys, mapExcept f l = Except.ok ys → ys.length = l.length := by
  intro l
  induction l with
  | nil =>
      intro ys h
      simp only [mapExcept] at h
      cases h
      rfl
  | cons x xs ih =>
      intro ys h
      simp only [mapExcept] at h
      cases hfx : f x with
      | error e => rw [hfx] at h; cases h
      | ok y =>
          rw [hfx] at h
          cases hm : mapExcept f xs with
          | error e => rw [hm] at h; cases h
          | ok zs =>
              rw [hm] at h
              cases h
              simp [ih zs hm]

theorem mapExcept_forall_of_ok {σ β : Type} (f : σ → Except String β) :
    ∀ l : List σ, ∀ ys, mapExcept f l = Except.ok ys →
      ∀ r ∈ l, ∃ y, f r = Except.ok y := by
  intro l
  induction l with
  | nil =>
      intro ys _ r hr
      cases hr
  | cons x xs ih =>
      intro ys h r hr
      simp only [mapExcept] at h
      cases hfx : f x with
      | error e => rw [hfx] at h; cases h
      | ok y =>
          rw [hfx] at h
          cases hm : mapExcept f xs with
          | error e => rw [hm] at h; cases h
          | ok zs =>
              rcases List.mem_cons.mp hr with hrx | hrxs
              · exact ⟨y, hrx ▸ hfx⟩
              · exact ih zs hm r hrxs

/-! ## Trace lemmas for the pipeline stages -/

theorem checkCollection_trace_shape (faults : Faults) (schema : CollectionCreateSchema)
    (s : TypesenseState) :
    ∀ e ∈ (checkCollection faults schema s).1,
      e = Event.deleteColl schema.name ∨ e = Event.createColl schema.name ∨
        ∃ m, e = Event.logError m := by
  intro e he
  simp only [checkCollection] at he
  cases hdel : deleteCollection s schema.name <;> rw [hdel] at he <;>
    by_cases hf : faults.createFails schema.name <;>
      simp only [hf, if_true, if_false, Bool.false_eq_true, List.cons_append,
        List.nil_append, List.mem_cons, List.not_mem_nil, or_false] at he <;>
      rcases he with rfl | rfl | rfl | rfl <;> tauto

theorem checkCollection_createColl_mem (faults : Faults) (schema : CollectionCreateSchema)
    (s : TypesenseState) :
    Event.createColl schema.name ∈ (checkCollection faults schema s).1 := by
  simp only [checkCollection]
  cases hdel : deleteCollection s schema.name <;>
    by_cases hf : faults.createFails schema.name <;> simp [hf]

theorem checkCollection_createFails {faults : Faults} {schema : CollectionCreateSchema}
    (s : TypesenseState) (hf : faults.createFails schema.name = true) :
    ∃ evs s1, checkCollection faults schema s = (evs, StepRes.halted (ExitKind.exited 0) s1) := by
  simp only [checkCollection, hf, if_true, gracefulExit]
  cases hdel : deleteCollection s schema.name <;> exact ⟨_, _, rfl⟩

theorem checkCollection_ok {faults : Faults} {schema : CollectionCreateSchema}
    (s : TypesenseState) (hf : faults.createFails schema.name = false) :
    ∃ evs s1, checkCollection faults schema s = (evs, StepRes.ok s1) := by
  simp only [checkCollection, hf, Bool.false_eq_true, if_false]
  cases hdel : deleteCollection s schema.name <;> exact ⟨_, _, rfl⟩

theorem uploadChunk_trace_shape (faults : Faults) (cnt : Nat)
    (schema : CollectionCreateSchema) (chunk : List TDoc) (s : TypesenseState) :
    ∀ e ∈ (uploadChunk faults cnt schema chunk s).1,
      (∃ m, e = Event.logInfo m) ∨
        (e = Event.importCall schema.name chunk.length ∧ chunk.length ≠ 0) ∨
        ∃ m, e = Event.logError m := by
  intro e he
  simp only [uploadChunk] at he
  by_cases hz : chunk.length = 0
  · rw [if_pos hz] at he
    cases he
  · rw [if_neg hz] at he
    by_cases hf : faults.importFails cnt
    · simp only [hf, if_true, List.cons_append, List.nil_append, List.mem_cons,
        List.not_mem_nil, or_false] at he
      rcases he with rfl | rfl | rfl
      · exact Or.inl ⟨_, rfl⟩
      · exact Or.inr (Or.inl ⟨rfl, hz⟩)
      · exact Or.inr (Or.inr ⟨_, rfl⟩)
    · simp only [hf, Bool.false_eq_true, if_false] at he
      cases him : importDocs s schema.name chunk <;> rw [him] at he <;>
        simp only [List.cons_append, List.nil_append, List.mem_cons,
          List.not_mem_nil, or_false] at he
      · rcases he with rfl | rfl | rfl
        · exact Or.inl ⟨_, rfl⟩
        · exact Or.inr (Or.inl ⟨rfl, hz⟩)
        · exact Or.inr (Or.inr ⟨_, rfl⟩)
      · rcases he with rfl | rfl
        · exact Or.inl ⟨_, rfl⟩
        · exact Or.inr (Or.inl ⟨rfl, hz⟩)

theorem uploadChunk_nil (faults : Faults) (cnt : Nat) (schema : CollectionCreateSchema)
    (s : TypesenseState) : uploadChunk faults cnt schema [] s = ([], s, cnt) := by
  simp [uploadChunk]

theorem uploadChunk_fault (faults : Faults) (cnt : Nat) (schema : CollectionCreateSchema)
    (chunk : List TDoc) (s : TypesenseState) (hz : chunk ≠ [])
    (hf : faults.importFails cnt = true) :
    (uploadChunk faults cnt schema chunk s).2 = (s, cnt + 1) ∧
      Event.logError ("import failed") ∈ (uploadChunk faults cnt schema chunk s).1 := by
  have hz2 : ¬ chunk.length = 0 := by
    simpa [List.length_eq_zero] using hz
  simp [uploadChunk, hz2, hf]

theorem uploadChunk_countImports (faults : Faults) (cnt : Nat)
    (schema : CollectionCreateSchema) (chunk : List TDoc) (s : TypesenseState) :
    countImports (uploadChunk faults cnt schema chunk s).1 =
      if chunk.length = 0 then 0 else 1 := by
  simp only [uploadChunk]
  by_cases hz : chunk.length = 0
  · simp [hz, countImports]
  · rw [if_neg hz, if_neg hz]
    by_cases hf : faults.importFails cnt
    · simp [hf, countImports]
    · simp only [hf, Bool.false_eq_true, if_false]
      cases him : importDocs s schema.name chunk <;> simp [countImports]

theorem countImports_append (a b : List Event) :
    countImports (a ++ b) = countImports a + countImports b := by
  simp [countImports, List.filter_append]

theorem checkCollection_countImports (faults : Faults) (schema : CollectionCreateSchema)
    (s : TypesenseState) : countImports (checkCollection faults schema s).1 = 0 := by
  simp only [checkCollection]
  cases hdel : deleteCollection s schema.name <;>
    by_cases hf : faults.createFails schema.name <;> simp [hf, countImports]

/-! ## Equations and facts for the page loop -/

theorem loop_nil {σ : Type} (faults : Faults) (schema : CollectionCreateSchema)
    (convert : σ → Except String TDoc) (pageNum cnt : Nat) (s : TypesenseState) :
    processMongoCollectionLoop faults schema convert [] pageNum cnt s =
      ([Event.fetchPage pageNum], StepRes.ok (s, cnt)) := rfl

theorem loop_cons_error {σ : Type} {faults : Faults} {schema : CollectionCreateSchema}
    {convert : σ → Except String TDoc} {page : List σ} {e : String}
    (h : mapExcept convert page = Except.error e) (rest : List (List σ))
    (pageNum cnt : Nat) (s : TypesenseState) :
    processMongoCollectionLoop faults schema convert (page :: rest) pageNum cnt s =
      ([Event.fetchPage pageNum], StepRes.halted (ExitKind.threw e) s) := by
  simp only [processMongoCollectionLoop, h]

theorem loop_cons_ok {σ : Type} {faults : Faults} {schema : CollectionCreateSchema}
    {convert : σ → Except String TDoc} {page : List σ} {docs : List TDoc}
    (h : mapExcept convert page = Except.ok docs) (rest : List (List σ))
    (pageNum cnt : Nat) (s : TypesenseState) :
    processMongoCollectionLoop faults schema convert (page :: rest) pageNum cnt s =
      (Event.fetchPage pageNum :: Event.transform page.length ::
         ((uploadChunk faults cnt schema docs s).1 ++
          (processMongoCollectionLoop faults schema convert rest (pageNum + 1)
            (uploadChunk faults cnt schema docs s).2.2
            (uploadChunk faults cnt schema docs s).2.1).1),
       (processMongoCollectionLoop faults schema convert rest (pageNum + 1)
         (uploadChunk faults cnt schema docs s).2.2
         (uploadChunk faults cnt schema docs s).2.1).2) := by
  simp only [processMongoCollectionLoop, h]

theorem loop_no_createColl {σ : Type} (faults : Faults) (schema : CollectionCreateSchema)
    (convert : σ → Except String TDoc) :
    ∀ (pages : List (List σ)) (pageNum cnt : Nat) (s : TypesenseState) (nm : String),
      Event.createColl nm ∉
        (processMongoCollectionLoop faults schema convert pages pageNum cnt s).1 := by
  intro pages
  induction pages with
  | nil =>
      intro pageNum cnt s nm h
      rw [loop_nil] at h
      simp at h
  | cons page rest ih =>
      intro pageNum cnt s nm h
      cases hm : mapExcept convert page with
      | error e =>
          rw [loop_cons_error hm] at h
          simp at h
      | ok docs =>
          rw [loop_cons_ok hm] at h
          rcases List.mem_cons.mp h with h2 | h2
          · cases h2
          rcases List.mem_cons.mp h2 with h3 | h3
          · cases h3
          rcases List.mem_append.mp h3 with h4 | h4
          · rcases uploadChunk_trace_shape _ _ _ _ _ _ h4 with ⟨m, hs⟩ | ⟨hs, _⟩ | ⟨m, hs⟩ <;>
              cases hs
          · exact ih _ _ _ nm h4

theorem loop_ok {σ : Type} (faults : Faults) (schema : CollectionCreateSchema)
    (convert : σ → Except String TDoc) :
    ∀ (pages : List (List σ)) (pageNum cnt : Nat) (s : TypesenseState),
      (∀ page ∈ pages, ∀ r ∈ page, ∃ y, convert r = Except.ok y) →
      finishedOk (processMongoCollectionLoop faults schema convert pages pageNum cnt s).2 = true := by
  intro pages
  induction pages with
  | nil =>
      intro pageNum cnt s _
      rw [loop_nil]
      rfl
  | cons page rest ih =>
      intro pageNum cnt s h
      obtain ⟨docs, hm, _⟩ :=
        mapExcept_ok_of_forall convert page (h page (List.mem_cons_self page rest))
      rw [loop_cons_ok hm]
      exact ih _ _ _ (fun q hq r hr => h q (List.mem_cons_of_mem page hq) r hr)

theorem loop_throws {σ : Type} (faults : Faults) (schema : CollectionCreateSchema)
    (convert : σ → Except String TDoc) :
    ∀ (pages : List (List σ)) (pageNum cnt : Nat) (s : TypesenseState),
      (∃ page ∈ pages, ∃ r ∈ page, ∃ e, convert r = Except.error e) →
      threwUnhandled
        (processMongoCollectionLoop faults schema convert pages pageNum cnt s).2 = true := by
  intro pages
  induction pages with
  | nil =>
      rintro pageNum cnt s ⟨page, hp, _⟩
      cases hp
  | cons page rest ih =>
      rintro pageNum cnt s ⟨q, hq, r, hr, e, he⟩
      cases hm : mapExcept convert page with
      | error e2 =>
          rw [loop_cons_error hm]
          rfl
      | ok docs =>
          rw [loop_cons_ok hm]
          rcases List.mem_cons.mp hq with rfl | hq2
          · obtain ⟨y, hy⟩ := mapExcept_forall_of_ok convert q docs hm r hr
            rw [he] at hy
            cases hy
          · exact ih _ _ _ ⟨q, hq2, r, hr, e, he⟩

theorem loop_countImports {σ : Type} (faults : Faults) (schema : CollectionCreateSchema)
    (convert : σ → Except String TDoc) :
    ∀ (pages : List (List σ)) (pageNum cnt : Nat) (s : TypesenseState),
      (∀ page ∈ pages, ∀ r ∈ page, ∃ y, convert r = Except.ok y) →
      countImports (processMongoCollectionLoop faults schema convert pages pageNum cnt s).1 =
        (pages.filter (fun page => !(page.length == 0))).length := by
  intro pages
  induction pages with
  | nil =>
      intro pageNum cnt s _
      rw [loop_nil]
      simp [countImports]
  | cons page rest ih =>
      intro pageNum cnt s h
      obtain ⟨docs, hm, hdlen⟩ :=
        mapExcept_ok_of_forall convert page (h page (List.mem_cons_self page rest))
      rw [loop_cons_ok hm]
      have hrest := ih (pageNum + 1) (uploadChunk faults cnt schema docs s).2.2
        (uploadChunk faults cnt schema docs s).2.1
        (fun q hq r hr => h q (List.mem_cons_of_mem page hq) r hr)
      have hcu := uploadChunk_countImports faults cnt schema docs s
      rw [hdlen] at hcu
      have hsplit : countImports (Event.fetchPage pageNum :: Event.transform page.length ::
          ((uploadChunk faults cnt schema docs s).1 ++
           (processMongoCollectionLoop faults schema convert rest (pageNum + 1)
             (uploadChunk faults cnt schema docs s).2.2
             (uploadChunk faults cnt schema docs s).2.1).1)) =
          countImports (uploadChunk faults cnt schema docs s).1 +
          countImports (processMongoCollectionLoop faults schema convert rest (pageNum + 1)
             (uploadChunk faults cnt schema docs s).2.2
             (uploadChunk faults cnt schema docs s).2.1).1 := by
        simp [countImports, List.filter_append]
      rw [hsplit, hcu, hrest]
      by_cases hz : page.length = 0
      · simp [List.filter_cons, hz]
      · simp [List.filter_cons, hz]
        omega

theorem loop_import_bound {σ : Type} (faults : Faults) (schema : CollectionCreateSchema)
    (convert : σ → Except String TDoc) (B : Nat) :
    ∀ (pages : List (List σ)) (pageNum cnt : Nat) (s : TypesenseState),
      (∀ page ∈ pages, page.length ≤ B) →
      ∀ nm n, Event.importCall nm n ∈
          (processMongoCollectionLoop faults schema convert pages pageNum cnt s).1 →
        1 ≤ n ∧ n ≤ B := by
  intro pages
  induction pages with
  | nil =>
      intro pageNum cnt s _ nm n h
      rw [loop_nil] at h
      simp at h
  | cons page rest ih =>
      intro pageNum cnt s hB nm n h
      cases hm : mapExcept convert page with
      | error e =>
          rw [loop_cons_error hm] at h
          simp at h
      | ok docs =>
          rw [loop_cons_ok hm] at h
          have hdlen : docs.length = page.length := mapExcept_ok_length convert page docs hm
          rcases List.mem_cons.mp h with h2 | h2
          · cases h2
          rcases List.mem_cons.mp h2 with h3 | h3
          · cases h3
          rcases List.mem_append.mp h3 with h4 | h4
          · rcases uploadChunk_trace_shape _ _ _ _ _ _ h4 with ⟨m, hs⟩ | ⟨hs, hnz⟩ | ⟨m, hs⟩
            · cases hs
            · injection hs with hnm hn
              have hple := hB page (List.mem_cons_self page rest)
              constructor <;> omega
            · cases hs
          · exact ih _ _ _ (fun q hq => hB q (List.mem_cons_of_mem page hq)) nm n h4

/-! ## Equations for the orchestrated pass -/

theorem processMongoCollection_of_check_ok {σ : Type} {faults : Faults}
    {schema : CollectionCreateSchema} {convert : σ → Except String TDoc}
    {pages : List (List σ)} {s : TypesenseState} {cnt : Nat}
    {evs : List Event} {s1 : TypesenseState}
    (hcc : checkCollection faults areaSchema s = (evs, StepRes.ok s1)) :
    processMongoCollection faults schema convert pages s cnt =
      (evs ++ (processMongoCollectionLoop faults schema convert pages 0 cnt s1).1,
       (processMongoCollectionLoop faults schema convert pages 0 cnt s1).2) := by
  simp only [processMongoCollection, hcc]

theorem processMongoCollection_of_check_halted {σ : Type} {faults : Faults}
    {schema : CollectionCreateSchema} {convert : σ → Except String TDoc}
    {pages : List (List σ)} {s : TypesenseState} {cnt : Nat}
    {evs : List Event} {k : ExitKind} {s1 : TypesenseState}
    (hcc : checkCollection faults areaSchema s = (evs, StepRes.halted k s1)) :
    processMongoCollection faults schema convert pages s cnt = (evs, StepRes.halted k s1) := by
  simp only [processMongoCollection, hcc]

/-! ## The claims -/

/-- C1: the claim says that with both flags the climbs pass provisions the
collection named by the climb schema and the areas pass the one named by the
area schema.  The code does not: `processMongoCollection` passes the
hardcoded `areaSchema` to its provisioning call (Typesense.ts line 141),
ignoring its `schema` parameter, so the climbs pass provisions the areas
collection and never the climbs collection.  Evaluated on a one-climb
source against an empty destination. -/
theorem C1_climbs_pass_provisions_area_collection :
    Event.createColl ("areas") ∈
      (updateClimbTypesense noFaults [climbFixture] ⟨[]⟩ 0).1 ∧
    ((updateClimbTypesense noFaults [climbFixture] ⟨[]⟩ 0).1.contains
        (Event.createColl ("climbs"))) = false := by
  decide

/-- C2 (amended): when the destination collection creation call fails, the
whole run is aborted through the defined exit path, and no page read,
transform, or chunk upload of that pass happens after the failed creation;
but the exit code is the default zero of the no-argument `gracefulExit()`
call at Typesense.ts line 108 — the same code as a completed run — not a
distinguished non-zero code. -/
theorem C2_creation_failure_aborts_pass {σ : Type} (faults : Faults)
    (schema : CollectionCreateSchema) (convert : σ → Except String TDoc)
    (pages : List (List σ)) (s : TypesenseState) (cnt : Nat)
    (hf : faults.createFails areaSchema.name = true) :
    haltKind (processMongoCollection faults schema convert pages s cnt).2 =
      some (ExitKind.exited 0) ∧
    ∀ e ∈ (processMongoCollection faults schema convert pages s cnt).1,
      isSyncWork e = false := by
  obtain ⟨evs, s1, hcc⟩ := checkCollection_createFails s hf
  rw [processMongoCollection_of_check_halted hcc]
  refine ⟨rfl, ?_⟩
  intro e he
  have hshape := checkCollection_trace_shape faults areaSchema s e (by rw [hcc]; exact he)
  rcases hshape with rfl | rfl | ⟨m, rfl⟩ <;> rfl

/-- Witness for C2: the amended theorem applied at a concrete input. -/
theorem C2_creation_failure_witness :
    haltKind (processMongoCollection allCreateFail climbSchema
        (fun doc => (climbMongoToTypeSense doc).map TDoc.climb)
        [[climbFixture]] ⟨[]⟩ 0).2 = some (ExitKind.exited 0) :=
  (C2_creation_failure_aborts_pass allCreateFail climbSchema
    (fun doc => (climbMongoToTypeSense doc).map TDoc.climb) [[climbFixture]] ⟨[]⟩ 0 rfl).1

/-- Counterexample for C2 as frozen: a run whose collection creation call
fails (the trace records the creation failure log line) terminates with exit
code zero, not with a distinguished non-zero exit code. -/
theorem C2_counterexample_exit_code_zero :
    (onDBConnected ⟨some ("host"), some ("key")⟩ ⟨true, false⟩ allCreateFail
        [climbFixture] [] ⟨[]⟩).halt = ExitKind.exited 0 ∧
    Event.logError ("create failed") ∈
      (onDBConnected ⟨some ("host"), some ("key")⟩ ⟨true, false⟩ allCreateFail
        [climbFixture] [] ⟨[]⟩).trace := by
  decide

/-- C3: if the destination host address or the API credential environment
variable is absent or empty, the run performs no step at all — the trace is
empty, so no provisioning call, no upload call and no page read is ever
attempted — the destination state is untouched, and the process terminates
with the designated failure exit code 1. -/
theorem C3_missing_env_exits_before_any_work (env : Env) (argv : Argv) (faults : Faults)
    (climbs : List ClimbExtType) (areasSrc : List AreaType) (s : TypesenseState)
    (h : env.TYPESENSE_NODE.getD "" = "" ∨ env.TYPESENSE_API_KEY.getD "" = "") :
    onDBConnected env argv faults climbs areasSrc s = ⟨[], ExitKind.exited 1, s⟩ := by
  simp only [onDBConnected, if_pos h]

/-- Witness for C3: a run with the host variable absent. -/
theorem C3_missing_env_witness :
    onDBConnected ⟨none, some ("key")⟩ ⟨true, true⟩ noFaults [] [] ⟨[]⟩ =
      ⟨[], ExitKind.exited 1, ⟨[]⟩⟩ :=
  C3_missing_env_exits_before_any_work ⟨none, some ("key")⟩ ⟨true, true⟩ noFaults [] [] ⟨[]⟩
    (Or.inl rfl)

/-- C4: for every page size ≥ 1 and every source collection of N records,
the pagination generator yields exactly ceil(N / pageSize) pages; every page
except possibly the last has exactly pageSize records; the last page has
N mod pageSize records (or a full page when the remainder is zero); page i
is exactly the fetch at offset i * pageSize; the fetch performed right after
the last yielded page — the one that terminates the generator — is empty;
and every yielded page is non-empty. -/
theorem C4_pagination_yields_ceil_pages {α : Type} (pageSize : Nat) (records : List α)
    (hp : 1 ≤ pageSize) :
    (genPages records pageSize).length = (records.length + pageSize - 1) / pageSize ∧
    (∀ i : Nat, i + 1 < (genPages records pageSize).length →
      ∃ page, (genPages records pageSize)[i]? = some page ∧ page.length = pageSize) ∧
    (records.length ≠ 0 →
      ∃ page, (genPages records pageSize)[(genPages records pageSize).length - 1]? =
          some page ∧
        page.length = (if records.length % pageSize = 0 then pageSize
                       else records.length % pageSize)) ∧
    (∀ i : Nat, i < (genPages records pageSize).length →
      (genPages records pageSize)[i]? = some (fetchPage records pageSize i)) ∧
    fetchPage records pageSize (genPages records pageSize).length = [] ∧
    (∀ page ∈ genPages records pageSize, page ≠ []) := by
  have hp0 : 0 < pageSize := hp
  rw [genPages_eq_chunksOf hp0]
  refine ⟨?_, ?_, ?_, ?_, ?_, ?_⟩
  · rw [chunksOf_length hp0, ceil_div_eq hp0]
  · exact fun i hi => chunksOf_full hp0 records i hi
  · intro hN
    have hne : records ≠ [] := fun hc => hN (by simp [hc])
    exact chunksOf_last hp0 records hne
  · intro i hi
    have hg := chunksOf_getElem? hp0 records i
    by_cases hc : records.length ≤ i * pageSize
    · rw [if_pos hc] at hg
      rw [List.getElem?_eq_none_iff] at hg
      omega
    · rw [if_neg hc] at hg
      exact hg
  · have hnone : (chunksOf pageSize records)[(chunksOf pageSize records).length]? = none :=
      List.getElem?_eq_none le_rfl
    have hg := chunksOf_getElem? hp0 records (chunksOf pageSize records).length
    by_cases hc : records.length ≤ (chunksOf pageSize records).length * pageSize
    · show (records.drop ((chunksOf pageSize records).length * pageSize)).take pageSize = []
      rw [List.drop_eq_nil_of_le hc]
      exact List.take_nil
    · rw [if_neg hc, hnone] at hg
      cases hg
  · exact chunksOf_mem_ne_nil hp0 records

/-- Witness for C4: page size 3 over a seven-record source. -/
theorem C4_pagination_witness :
    (genPages ([0, 1, 2, 3, 4, 5, 6] : List Nat) 3).length = (7 + 3 - 1) / 3 ∧
    fetchPage ([0, 1, 2, 3, 4, 5, 6] : List Nat) 3
      (genPages ([0, 1, 2, 3, 4, 5, 6] : List Nat) 3).length = [] := by
  have h := C4_pagination_yields_ceil_pages 3 ([0, 1, 2, 3, 4, 5, 6] : List Nat) (by omega)
  exact ⟨h.1, h.2.2.2.2.1⟩

/-- C5: both record transformers are deterministic and total on every
well-formed record: whenever the identifier is present — the optional
fields arbitrary — the transform returns `Except.ok` of a document every
field of which is fully determined by the input (so the same record always
yields the same document, and every destination field is populated, the
optional sources going through the empty-string default); and each
individually missing optional field maps to the empty string — climb
description, first-ascent text, and area name — whatever the other optional
fields hold. -/
theorem C5_transformers_total_with_defaults (cdoc : ClimbExtType) (adoc : AreaType)
    (cid aid : String) (hc : cdoc.metadata.climb_id = some cid)
    (ha : adoc.metadata.area_id = some aid) :
    climbMongoToTypeSense cdoc = Except.ok
      { climbUUID := cid
        climbName := cdoc.name
        climbDesc := cdoc.content.description.getD ""
        fa := cdoc.fa.getD ""
        areaNames := cdoc.pathTokens
        disciplines := disciplinesToArray cdoc.type
        grade := cdoc.yds
        safety := cdoc.safety
        cragLatLng := geoToLatLng cdoc.metadata.lnglat } ∧
    areaMongoToTypeSense adoc = Except.ok
      { areaUUID := aid
        name := adoc.area_name.getD ""
        pathTokens := adoc.pathTokens
        areaLatLng := geoToLatLng adoc.metadata.lnglat
        leaf := adoc.metadata.leaf
        isDestination := adoc.metadata.isDestination
        totalClimbs := adoc.totalClimbs
        density := adoc.density } ∧
    (cdoc.content.description = none → climbMongoToTypeSense cdoc = Except.ok
      { climbUUID := cid
        climbName := cdoc.name
        climbDesc := ""
        fa := cdoc.fa.getD ""
        areaNames := cdoc.pathTokens
        disciplines := disciplinesToArray cdoc.type
        grade := cdoc.yds
        safety := cdoc.safety
        cragLatLng := geoToLatLng cdoc.metadata.lnglat }) ∧
    (cdoc.fa = none → climbMongoToTypeSense cdoc = Except.ok
      { climbUUID := cid
        climbName := cdoc.name
        climbDesc := cdoc.content.description.getD ""
        fa := ""
        areaNames := cdoc.pathTokens
        disciplines := disciplinesToArray cdoc.type
        grade := cdoc.yds
        safety := cdoc.safety
        cragLatLng := geoToLatLng cdoc.metadata.lnglat }) ∧
    (adoc.area_name = none → areaMongoToTypeSense adoc = Except.ok
      { areaUUID := aid
        name := ""
        pathTokens := adoc.pathTokens
        areaLatLng := geoToLatLng adoc.metadata.lnglat
        leaf := adoc.metadata.leaf
        isDestination := adoc.metadata.isDestination
        totalClimbs := adoc.totalClimbs
        density := adoc.density }) := by
  refine ⟨?_, ?_, ?_, ?_, ?_⟩
  · simp [climbMongoToTypeSense, hc]
  · simp [areaMongoToTypeSense, ha]
  · intro hd
    simp [climbMongoToTypeSense, hc, hd]
  · intro hfa
    simp [climbMongoToTypeSense, hc, hfa]
  · intro hn
    simp [areaMongoToTypeSense, ha, hn]

/-- Witness for C5: one climb fixture with every optional field absent, one
with every optional field present, and an area fixture with the name
absent. -/
theorem C5_transformers_witness :
    climbMongoToTypeSense climbFixture = Except.ok climbFixtureDoc ∧
    areaMongoToTypeSense areaFixture = Except.ok areaFixtureDoc ∧
    climbMongoToTypeSense describedClimbFixture = Except.ok describedClimbFixtureDoc := by
  have h := C5_transformers_total_with_defaults climbFixture areaFixture
    ("climb-uuid-1") ("area-uuid-1") rfl rfl
  have h2 := C5_transformers_total_with_defaults describedClimbFixture areaFixture
    ("climb-uuid-1") ("area-uuid-1") rfl rfl
  exact ⟨h.1, h.2.1, h2.1⟩

/-- C6: for every geographic point whose coordinate list is the pair
[longitude, latitude], the conversion used by both transformers returns
exactly the swapped pair [latitude, longitude], values unchanged. -/
theorem C6_geo_swap (lng lat : ℚ) : geoToLatLng ⟨[lng, lat]⟩ = [lat, lng] := rfl

/-- C7: the chunk uploader isolates faults at chunk granularity: when every
record transforms, the pass finishes with a normal return no matter
which import calls the fault oracle fails; exactly one import call is made
per non-empty page, so all other chunks are still attempted when one fails;
an empty batch is a no-op performing no import call; and a failed upload is
logged while state and the import counter simply move on to the next
chunk. -/
theorem C7_chunk_fault_isolation {σ : Type} (faults : Faults)
    (schema : CollectionCreateSchema) (convert : σ → Except String TDoc)
    (pages : List (List σ)) (s : TypesenseState) (cnt : Nat)
    (hok : ∀ page ∈ pages, ∀ r ∈ page, ∃ y, convert r = Except.ok y)
    (hcf : faults.createFails areaSchema.name = false) :
    finishedOk (processMongoCollection faults schema convert pages s cnt).2 = true ∧
    countImports (processMongoCollection faults schema convert pages s cnt).1 =
      (pages.filter (fun page => !(page.length == 0))).length ∧
    (∀ (s2 : TypesenseState) (cnt2 : Nat),
      uploadChunk faults cnt2 schema [] s2 = ([], s2, cnt2)) ∧
    (∀ (chunk : List TDoc) (s2 : TypesenseState) (cnt2 : Nat), chunk ≠ [] →
      faults.importFails cnt2 = true →
      (uploadChunk faults cnt2 schema chunk s2).2 = (s2, cnt2 + 1) ∧
      Event.logError ("import failed") ∈ (uploadChunk faults cnt2 schema chunk s2).1) := by
  obtain ⟨evs, s1, hcc⟩ := checkCollection_ok s hcf
  rw [processMongoCollection_of_check_ok hcc]
  dsimp only
  refine ⟨?_, ?_, ?_, ?_⟩
  · exact loop_ok faults schema convert pages 0 cnt s1 hok
  · rw [countImports_append]
    have h0 : countImports evs = 0 := by
      have h1 := checkCollection_countImports faults areaSchema s
      rw [hcc] at h1
      exact h1
    rw [h0, loop_countImports faults schema convert pages 0 cnt s1 hok]
    omega
  · exact fun s2 cnt2 => uploadChunk_nil faults cnt2 schema s2
  · exact fun chunk s2 cnt2 hne hfi => uploadChunk_fault faults cnt2 schema chunk s2 hne hfi

/-- Witness for C7: a fault on the first import call of the run, a
one-page source, and an empty batch. -/
theorem C7_chunk_fault_isolation_witness :
    finishedOk (processMongoCollection oneImportFault climbSchema
        (fun doc => (climbMongoToTypeSense doc).map TDoc.climb)
        [[climbFixture]] ⟨[]⟩ 0).2 = true ∧
    uploadChunk oneImportFault 7 climbSchema [] ⟨[]⟩ = ([], ⟨[]⟩, 7) := by
  have hok : ∀ page ∈ ([[climbFixture]] : List (List ClimbExtType)), ∀ r ∈ page,
      ∃ y, (fun doc => (climbMongoToTypeSense doc).map TDoc.climb) r = Except.ok y := by
    intro page hpg r hr
    rw [List.mem_singleton] at hpg
    subst hpg
    rw [List.mem_singleton] at hr
    subst hr
    exact ⟨TDoc.climb climbFixtureDoc, rfl⟩
  have h := C7_chunk_fault_isolation oneImportFault climbSchema
    (fun doc => (climbMongoToTypeSense doc).map TDoc.climb) [[climbFixture]] ⟨[]⟩ 0 hok rfl
  exact ⟨h.1, h.2.2.1 ⟨[]⟩ 7⟩

/-- C8: a transform failure on a malformed source record (one lacking the
required identifier) is not caught by the chunk-level error handling: the
per-record conversion runs in the argument of the uploader, before its
try/catch, so the failure leaves the climbs pass as an unhandled thrown
error instead of being logged and skipped like a chunk upload failure. -/
theorem C8_transform_failure_is_unhandled (faults : Faults) (climbs : List ClimbExtType)
    (s : TypesenseState) (cnt : Nat)
    (hbad : ∃ r ∈ climbs, r.metadata.climb_id = none)
    (hcf : faults.createFails areaSchema.name = false) :
    threwUnhandled (updateClimbTypesense faults climbs s cnt).2 = true := by
  obtain ⟨evs, s1, hcc⟩ := checkCollection_ok s hcf
  obtain ⟨r, hr, hnone⟩ := hbad
  rw [updateClimbTypesense, processMongoCollection_of_check_ok hcc]
  dsimp only
  refine loop_throws faults climbSchema _ (getAllClimbs climbs) 0 cnt s1 ?_
  have hcs : 0 < chunkSize := by decide
  have hjoin : (getAllClimbs climbs).flatten = climbs := by
    rw [getAllClimbs, genPages_eq_chunksOf hcs]
    exact chunksOf_flatten hcs climbs
  rw [← hjoin] at hr
  obtain ⟨page, hpage, hrp⟩ := List.mem_flatten.mp hr
  refine ⟨page, hpage, r, hrp, "TypeError: climb_id is undefined", ?_⟩
  have h1 : climbMongoToTypeSense r = Except.error ("TypeError: climb_id is undefined") := by
    simp [climbMongoToTypeSense, hnone]
  show (climbMongoToTypeSense r).map TDoc.climb = Except.error ("TypeError: climb_id is undefined")
  rw [h1]
  rfl

/-- Witness for C8: a one-record source whose record lacks the
identifier. -/
theorem C8_transform_failure_witness :
    threwUnhandled (updateClimbTypesense noFaults [badClimbFixture] ⟨[]⟩ 0).2 = true :=
  C8_transform_failure_is_unhandled noFaults [badClimbFixture] ⟨[]⟩ 0
    ⟨badClimbFixture, List.mem_singleton.mpr rfl, rfl⟩ rfl

/-- C9: the claim says every full sync pass is idempotent on destination
content.  The climbs pass is not: because its provisioning call recreates
the areas collection (Typesense.ts line 141) instead of the climbs
collection, its imports append to whatever climbs collection already exists,
so a second identical run duplicates every document.  Evaluated on a
one-climb source against a destination that already holds an empty climbs
collection: one pass stores the document once, two passes store it twice,
and the two end states differ. -/
theorem C9_climbs_pass_not_idempotent :
    passFinalState (updateClimbTypesense noFaults [climbFixture]
        (⟨[("climbs", [])]⟩ : TypesenseState) 0) =
      ⟨[("climbs", [TDoc.climb climbFixtureDoc]), ("areas", [])]⟩ ∧
    passFinalState (updateClimbTypesense noFaults [climbFixture]
        (passFinalState (updateClimbTypesense noFaults [climbFixture]
          (⟨[("climbs", [])]⟩ : TypesenseState) 0)) 0) =
      ⟨[("climbs", [TDoc.climb climbFixtureDoc, TDoc.climb climbFixtureDoc]),
        ("areas", [])]⟩ ∧
    ((passFinalState (updateClimbTypesense noFaults [climbFixture]
        (passFinalState (updateClimbTypesense noFaults [climbFixture]
          (⟨[("climbs", [])]⟩ : TypesenseState) 0)) 0)) ==
      (passFinalState (updateClimbTypesense noFaults [climbFixture]
        (⟨[("climbs", [])]⟩ : TypesenseState) 0))) = false := by
  decide

/-- C10: every chunk passed to the uploader is non-empty and holds at most
`chunkSize` = 5000 documents: the two generators only yield pages of length
between 1 and 5000, and every import call recorded in either pass carries
between 1 and 5000 documents. -/
theorem C10_chunk_bounds (faults : Faults) (climbs : List ClimbExtType)
    (areasSrc : List AreaType) (s s2 : TypesenseState) (cnt cnt2 : Nat) :
    (∀ page ∈ getAllClimbs climbs, 1 ≤ page.length ∧ page.length ≤ chunkSize) ∧
    (∀ page ∈ getAllAreas areasSrc, 1 ≤ page.length ∧ page.length ≤ chunkSize) ∧
    (∀ nm n, Event.importCall nm n ∈ (updateClimbTypesense faults climbs s cnt).1 →
      1 ≤ n ∧ n ≤ chunkSize) ∧
    (∀ nm n, Event.importCall nm n ∈ (updateAreaTypesense faults areasSrc s2 cnt2).1 →
      1 ≤ n ∧ n ≤ chunkSize) := by
  have hcs : 0 < chunkSize := by decide
  have hbound : ∀ (β : Type) (src : List β), ∀ page ∈ genPages src chunkSize,
      1 ≤ page.length ∧ page.length ≤ chunkSize := by
    intro β src page hpg
    rw [genPages_eq_chunksOf hcs] at hpg
    refine ⟨?_, chunksOf_mem_length_le hcs src page hpg⟩
    have hne := chunksOf_mem_ne_nil hcs src page hpg
    have hpos := List.length_pos.mpr hne
    omega
  have himp : ∀ (β : Type) (schema2 : CollectionCreateSchema)
      (convert : β → Except String TDoc) (src : List β) (st : TypesenseState) (c : Nat),
      ∀ nm n, Event.importCall nm n ∈
          (processMongoCollection faults schema2 convert (genPages src chunkSize) st c).1 →
        1 ≤ n ∧ n ≤ chunkSize := by
    intro β schema2 convert src st c nm n hmem
    rcases hcc : checkCollection faults areaSchema st with ⟨evs, r⟩
    cases r with
    | halted k st1 =>
        rw [processMongoCollection_of_check_halted hcc] at hmem
        have hsh := checkCollection_trace_shape faults areaSchema st _ (by rw [hcc]; exact hmem)
        rcases hsh with heq | heq | ⟨m, heq⟩ <;> cases heq
    | ok st1 =>
        rw [processMongoCollection_of_check_ok hcc] at hmem
        dsimp only at hmem
        rcases List.mem_append.mp hmem with hm1 | hm1
        · have hsh := checkCollection_trace_shape faults areaSchema st _ (by rw [hcc]; exact hm1)
          rcases hsh with heq | heq | ⟨m, heq⟩ <;> cases heq
        · exact loop_import_bound faults schema2 convert chunkSize (genPages src chunkSize)
            0 c st1 (fun q hq => (hbound β src q hq).2) nm n hm1
  refine ⟨hbound ClimbExtType climbs, hbound AreaType areasSrc, ?_, ?_⟩
  · intro nm n hmem
    rw [updateClimbTypesense] at hmem
    exact himp ClimbExtType climbSchema _ climbs s cnt nm n hmem
  · intro nm n hmem
    rw [updateAreaTypesense] at hmem
    exact himp AreaType areaSchema _ areasSrc s2 cnt2 nm n hmem

/-- Witness for C10: the page the generator yields for a one-climb source
is within bounds. -/
theorem C10_chunk_bounds_witness :
    1 ≤ ([climbFixture] : List ClimbExtType).length ∧
      ([climbFixture] : List ClimbExtType).length ≤ chunkSize := by
  have h := C10_chunk_bounds noFaults [climbFixture] [] ⟨[]⟩ ⟨[]⟩ 0 0
  exact h.1 [climbFixture] (by decide)

end OpenBeta
